import Mathlib

/-!
Verification of the `FloatingContributors` widget
(`src/components/FloatingContributors/index.tsx`).

The component is shallowly embedded: every pure helper of the source file
becomes a Lean function over `Int` timestamps (JS millisecond epoch values),
the GitHub contributor merge loop becomes a fold over an association list
(modelling the insertion-ordered JS `Map`), the retry / rotation state
machines become explicit step functions, and the render function becomes a
total function into an output datatype where `none` marks a thrown
exception (dereference of `undefined`).  Randomness (`Math.random()`) is
modelled by an explicit oracle argument: a rational in `[0,1)` where the
numeric value matters, or an index-choosing function where only the chosen
element matters.
-/

/-- A contributor record as stored in the component's `contributorsMap`
(interface `Contributor` of the source file). -/
structure Contributor where
  id : String
  login : String
  avatar_url : String
  contributions : Int
  html_url : String
  lastActivity : Int
  deriving Repr, DecidableEq

/-- The four activity kinds of `ContributorActivity['action']`. -/
inductive ContribAction where
  | checkedIn
  | contributed
  | starred
  | forked
  deriving Repr, DecidableEq

/-- A synthesized activity event (interface `ContributorActivity`). -/
structure ContributorActivity where
  contributor : Contributor
  action : ContribAction
  timestamp : Int
  deriving Repr, DecidableEq

/-- `formatTimeAgo` from the source, lines 181–201.  `currentTime` is the
component's `currentTime` state, `timestamp` the argument; both are JS
millisecond epoch values.  JS `Math.floor(x / 1000)` on an integer `x` is
floor division, which for the positive divisors used here coincides with
Lean's `Int` division `/` (Euclidean division). -/
def formatTimeAgo (currentTime timestamp : Int) : String :=
  let diffInSeconds : Int := (currentTime - timestamp) / 1000
  if diffInSeconds < 60 then
    if diffInSeconds ≤ 30 then "just now"
    else toString diffInSeconds ++ " seconds ago"
  else
    let diffInMinutes : Int := diffInSeconds / 60
    if diffInMinutes < 60 then
      if diffInMinutes = 1 then "1 minute ago"
      else toString diffInMinutes ++ " minutes ago"
    else
      let diffInHours : Int := diffInMinutes / 60
      if diffInHours < 24 then
        if diffInHours = 1 then "1 hour ago"
        else toString diffInHours ++ " hours ago"
      else
        let diffInDays : Int := diffInHours / 24
        if diffInDays = 1 then "1 day ago"
        else toString diffInDays ++ " days ago"

/-- The relative-time rule exactly as the specification words it:
`d = floor((now − timestamp)/1000)`; `d ≤ 30` → "just now"; `d < 60` →
"`d` seconds ago"; `d < 3600` → minutes with singular/plural wording;
`d < 86400` → hours with singular/plural; otherwise days, with the unit
counts taken as `d` floor-divided by the unit length. -/
def specTimeAgo (now timestamp : Int) : String :=
  let d : Int := (now - timestamp) / 1000
  if d ≤ 30 then "just now"
  else if d < 60 then toString d ++ " seconds ago"
  else if d < 3600 then
    let m : Int := d / 60
    if m = 1 then "1 minute ago" else toString m ++ " minutes ago"
  else if d < 86400 then
    let h : Int := d / 3600
    if h = 1 then "1 hour ago" else toString h ++ " hours ago"
  else
    let dd : Int := d / 86400
    if dd = 1 then "1 day ago" else toString dd ++ " days ago"

/-- C1: `formatTimeAgo` agrees with the specification's relative-time rule
for every current time and timestamp, and in particular maps differences of
29 s, 45 s, 90 s, 7200 s and 90000 s to "just now", "45 seconds ago",
"1 minute ago", "2 hours ago" and "1 day ago" respectively. -/
theorem formatTimeAgo_matches_spec :
    (∀ now timestamp : Int, formatTimeAgo now timestamp = specTimeAgo now timestamp) ∧
    formatTimeAgo 29000 0 = "just now" ∧
    formatTimeAgo 45000 0 = "45 seconds ago" ∧
    formatTimeAgo 90000 0 = "1 minute ago" ∧
    formatTimeAgo 7200000 0 = "2 hours ago" ∧
    formatTimeAgo 90000000 0 = "1 day ago" := by
  refine ⟨fun now timestamp => ?_, by decide, by decide, by decide, by decide, by decide⟩
  unfold formatTimeAgo specTimeAgo
  set d : Int := (now - timestamp) / 1000 with hd
  have h60 : d / 60 < 60 ↔ d < 3600 := by omega
  have h3600 : (d / 60) / 60 < 24 ↔ d < 86400 := by omega
  have e3600 : (d / 60) / 60 = d / 3600 := by omega
  have e86400 : ((d / 60) / 60) / 24 = d / 86400 := by omega
  dsimp only
  split_ifs with h1 h2 h3 h4 h5 h6 h7 h8 h9 h10 h11 <;>
    simp_all <;> omega

/-- C10: `formatTimeAgo` is total and, whenever the millisecond difference
`now − timestamp` is at most 30000 — including every negative difference,
i.e. timestamps in the future — it returns "just now". -/
theorem formatTimeAgo_future_just_now (now timestamp : Int)
    (h : now - timestamp ≤ 30000) : formatTimeAgo now timestamp = "just now" := by
  unfold formatTimeAgo
  have h30 : (now - timestamp) / 1000 ≤ 30 := by omega
  have h60 : (now - timestamp) / 1000 < 60 := by omega
  simp [h30, h60]

/-- Witness for C10 at a future timestamp: at current time 0 a timestamp
5000 ms in the future yields "just now". -/
theorem formatTimeAgo_future_just_now_witness :
    (0 : Int) - 5000 ≤ 30000 ∧ formatTimeAgo 0 5000 = "just now" :=
  ⟨by decide, formatTimeAgo_future_just_now 0 5000 (by decide)⟩

/-- A raw contributor record as returned by the GitHub contributors
endpoint, with the fields the merge loop reads.  `login` is `none` when the
JSON field is absent/null; the JS truthiness test `contributor.login` also
rejects the empty string. -/
structure RawContributor where
  login : Option String
  type : String
  id : Int
  avatar_url : String
  contributions : Int
  html_url : String
  deriving Repr, DecidableEq

/-- The guard of the merge loop (line 78):
`contributor.login && contributor.type === 'User'`. -/
def validRecord (c : RawContributor) : Bool :=
  match c.login with
  | none => false
  | some l => decide (l ≠ "") && decide (c.type = "User")

/-- `existing.contributions += contributor.contributions` (line 81): bump
the contribution count of the entry keyed `l`, leave every other entry
unchanged. -/
def bumpEntry (l : String) (k : Int) (p : String × Contributor) :
    String × Contributor :=
  if p.1 = l then (p.1, { p.2 with contributions := p.2.contributions + k }) else p

/-- One iteration of the `repoContributors.forEach` body (lines 77–93) on
the insertion-ordered map, modelled as an association list.  The record is
paired with the value `generateRandomTimestamp()` would return at this
iteration (the random draw is an input of the model). -/
def mergeOne (m : List (String × Contributor)) (rc : RawContributor × Int) :
    List (String × Contributor) :=
  match rc.1.login with
  | none => m
  | some l =>
    if l ≠ "" ∧ rc.1.type = "User" then
      if l ∈ m.map Prod.fst then
        m.map (bumpEntry l rc.1.contributions)
      else
        m ++ [(l, { id := toString rc.1.id, login := l,
                    avatar_url := rc.1.avatar_url,
                    contributions := rc.1.contributions,
                    html_url := rc.1.html_url, lastActivity := rc.2 })]
    else m

/-- The whole merge step: the concatenation, in fetch order, of all
per-repository contributor lists is folded through the loop body starting
from the empty `contributorsMap`. -/
def mergeAll (rcs : List (RawContributor × Int)) : List (String × Contributor) :=
  rcs.foldl mergeOne []

/-- The records that pass the loop guard and carry login `l`. -/
def recordsFor (l : String) (rcs : List (RawContributor × Int)) :
    List (RawContributor × Int) :=
  rcs.filter fun rc => validRecord rc.1 && decide (rc.1.login = some l)

/-- Total contribution count of the guarded records with login `l`. -/
def sumContributions (l : String) (rcs : List (RawContributor × Int)) : Int :=
  ((recordsFor l rcs).map fun rc => rc.1.contributions).sum

/-- The map entry the merge loop should produce for login `l`: identity
fields of the first-seen guarded record, contribution counts summed. -/
def entryFor (l : String) (rcs : List (RawContributor × Int)) : Option Contributor :=
  match recordsFor l rcs with
  | [] => none
  | r0 :: _ =>
    some { id := toString r0.1.id, login := l, avatar_url := r0.1.avatar_url,
           contributions := sumContributions l rcs, html_url := r0.1.html_url,
           lastActivity := r0.2 }

lemma bumpEntry_fst (l : String) (k : Int) (p : String × Contributor) :
    (bumpEntry l k p).1 = p.1 := by
  unfold bumpEntry; split <;> rfl

lemma map_bumpEntry_keys (l : String) (k : Int) (m : List (String × Contributor)) :
    (m.map (bumpEntry l k)).map Prod.fst = m.map Prod.fst := by
  rw [List.map_map]
  exact List.map_congr_left fun p _ => bumpEntry_fst l k p

lemma mem_map_bumpEntry {l₀ : String} {k : Int} {m : List (String × Contributor)}
    {l : String} {c : Contributor} :
    (l, c) ∈ m.map (bumpEntry l₀ k) ↔
      ∃ c', (l, c') ∈ m ∧ bumpEntry l₀ k (l, c') = (l, c) := by
  rw [List.mem_map]
  constructor
  · rintro ⟨⟨l', c'⟩, hm, heq⟩
    have hfst : l' = l := by
      have := congrArg Prod.fst heq
      rwa [bumpEntry_fst] at this
    subst hfst
    exact ⟨c', hm, heq⟩
  · rintro ⟨c', hm, heq⟩
    exact ⟨(l, c'), hm, heq⟩

lemma recordsFor_append_invalid {rc : RawContributor × Int}
    (h : validRecord rc.1 = false) (l : String) (p : List (RawContributor × Int)) :
    recordsFor l (p ++ [rc]) = recordsFor l p := by
  simp [recordsFor, List.filter_append, h]

lemma recordsFor_append_same {rc : RawContributor × Int}
    (h : validRecord rc.1 = true) {l : String} (hl : rc.1.login = some l)
    (p : List (RawContributor × Int)) :
    recordsFor l (p ++ [rc]) = recordsFor l p ++ [rc] := by
  simp [recordsFor, List.filter_append, h, hl]

lemma recordsFor_append_other {rc : RawContributor × Int} {l : String}
    (hl : rc.1.login ≠ some l) (p : List (RawContributor × Int)) :
    recordsFor l (p ++ [rc]) = recordsFor l p := by
  simp [recordsFor, List.filter_append, hl]

lemma entryFor_eq_none {l : String} {p : List (RawContributor × Int)} :
    entryFor l p = none ↔ recordsFor l p = [] := by
  unfold entryFor
  cases recordsFor l p <;> simp

lemma entryFor_append_untouched {rc : RawContributor × Int} {l : String}
    {p : List (RawContributor × Int)}
    (h : recordsFor l (p ++ [rc]) = recordsFor l p) :
    entryFor l (p ++ [rc]) = entryFor l p := by
  unfold entryFor sumContributions
  rw [h]

lemma sumContributions_append_same {rc : RawContributor × Int}
    (hvr : validRecord rc.1 = true) {l : String} (hl : rc.1.login = some l)
    (p : List (RawContributor × Int)) :
    sumContributions l (p ++ [rc]) = sumContributions l p + rc.1.contributions := by
  unfold sumContributions
  rw [recordsFor_append_same hvr hl]
  simp

lemma entryFor_append_new {rc : RawContributor × Int}
    (hvr : validRecord rc.1 = true) {l : String} (hl : rc.1.login = some l)
    {p : List (RawContributor × Int)} (h0 : recordsFor l p = []) :
    entryFor l (p ++ [rc]) =
      some { id := toString rc.1.id, login := l, avatar_url := rc.1.avatar_url,
             contributions := rc.1.contributions, html_url := rc.1.html_url,
             lastActivity := rc.2 } := by
  have hsum : sumContributions l p = 0 := by
    unfold sumContributions; rw [h0]; simp
  unfold entryFor
  rw [recordsFor_append_same hvr hl, h0,
    sumContributions_append_same hvr hl, hsum]
  simp

lemma entryFor_append_bump {rc : RawContributor × Int}
    (hvr : validRecord rc.1 = true) {l : String} (hl : rc.1.login = some l)
    {p : List (RawContributor × Int)} {r0 : RawContributor × Int}
    {rest : List (RawContributor × Int)} (h0 : recordsFor l p = r0 :: rest) :
    entryFor l (p ++ [rc]) =
      some { id := toString r0.1.id, login := l, avatar_url := r0.1.avatar_url,
             contributions := sumContributions l p + rc.1.contributions,
             html_url := r0.1.html_url, lastActivity := r0.2 } := by
  unfold entryFor
  rw [recordsFor_append_same hvr hl, h0,
    sumContributions_append_same hvr hl, List.cons_append]

lemma mem_keys_iff {m : List (String × Contributor)} {l : String} :
    l ∈ m.map Prod.fst ↔ ∃ c, (l, c) ∈ m := by
  rw [List.mem_map]
  constructor
  · rintro ⟨⟨l', c⟩, hm, rfl⟩; exact ⟨c, hm⟩
  · rintro ⟨c, hm⟩; exact ⟨(l, c), hm, rfl⟩

/-- The loop invariant of the merge: the accumulated map has pairwise
distinct keys, and holds exactly the entries `entryFor` predicts from the
processed prefix of the record stream. -/
def MergeInv (p : List (RawContributor × Int)) (m : List (String × Contributor)) :
    Prop :=
  (m.map Prod.fst).Nodup ∧ ∀ l c, ((l, c) ∈ m ↔ entryFor l p = some c)

lemma mergeInv_nil : MergeInv [] [] := by
  refine ⟨by simp, fun l c => ?_⟩
  simp [entryFor, recordsFor]

lemma mergeInv_step {p : List (RawContributor × Int)}
    {m : List (String × Contributor)} (rc : RawContributor × Int)
    (h : MergeInv p m) : MergeInv (p ++ [rc]) (mergeOne m rc) := by
  obtain ⟨hnd, hiff⟩ := h
  cases hlog : rc.1.login with
  | none =>
    have hvr : validRecord rc.1 = false := by simp [validRecord, hlog]
    have hm : mergeOne m rc = m := by unfold mergeOne; rw [hlog]
    rw [hm]
    refine ⟨hnd, fun l c => ?_⟩
    rw [entryFor_append_untouched (recordsFor_append_invalid hvr l p)]
    exact hiff l c
  | some l₀ =>
    by_cases hval : l₀ ≠ "" ∧ rc.1.type = "User"
    · have hvr : validRecord rc.1 = true := by
        simp [validRecord, hlog, hval.1, hval.2]
      by_cases hmem : l₀ ∈ m.map Prod.fst
      · -- existing entry: in-place bump of the contribution count
        have hm : mergeOne m rc = m.map (bumpEntry l₀ rc.1.contributions) := by
          unfold mergeOne; rw [hlog]; dsimp only
          rw [if_pos hval, if_pos hmem]
        rw [hm]
        refine ⟨by rw [map_bumpEntry_keys]; exact hnd, fun l c => ?_⟩
        by_cases hl : l = l₀
        · subst hl
          obtain ⟨c₀, hc₀⟩ := mem_keys_iff.mp hmem
          have hE₀ : entryFor l p = some c₀ := (hiff l c₀).mp hc₀
          obtain ⟨r0, rest, h0⟩ : ∃ r0 rest, recordsFor l p = r0 :: rest := by
            rcases hr : recordsFor l p with _ | ⟨r0, rest⟩
            · rw [entryFor_eq_none.mpr hr] at hE₀; cases hE₀
            · exact ⟨r0, rest, rfl⟩
          have hc₀eq : c₀ = { id := toString r0.1.id, login := l,
                              avatar_url := r0.1.avatar_url,
                              contributions := sumContributions l p,
                              html_url := r0.1.html_url,
                              lastActivity := r0.2 } := by
            unfold entryFor at hE₀
            rw [h0] at hE₀
            exact (Option.some.inj hE₀).symm
          rw [mem_map_bumpEntry, entryFor_append_bump hvr hlog h0]
          constructor
          · rintro ⟨c', hc', hbump⟩
            have hc'eq : c' = c₀ := by
              have h1 := (hiff l c').mp hc'
              rw [hE₀] at h1
              exact Option.some.inj h1.symm
            subst hc'eq
            rw [hc₀eq] at hbump
            unfold bumpEntry at hbump
            simp at hbump
            rw [← hbump]
          · intro hc
            refine ⟨c₀, hc₀, ?_⟩
            rw [hc₀eq]
            unfold bumpEntry
            simp
            exact Option.some.inj hc
        · have hlog' : rc.1.login ≠ some l := by rw [hlog]; simp; exact fun e => hl e.symm
          rw [entryFor_append_untouched (recordsFor_append_other hlog' p),
            mem_map_bumpEntry]
          constructor
          · rintro ⟨c', hc', hbump⟩
            have : bumpEntry l₀ rc.1.contributions (l, c') = (l, c') := by
              unfold bumpEntry; rw [if_neg]; simpa using hl
            rw [this] at hbump
            rw [← (Prod.mk.injEq _ _ _ _).mp hbump |>.2]
            exact (hiff l c').mp hc'
          · intro hc
            refine ⟨c, (hiff l c).mpr hc, ?_⟩
            unfold bumpEntry; rw [if_neg]; simpa using hl
      · -- fresh login: append a new entry at the end of the map
        have hm : mergeOne m rc = m ++
            [(l₀, { id := toString rc.1.id, login := l₀,
                    avatar_url := rc.1.avatar_url,
                    contributions := rc.1.contributions,
                    html_url := rc.1.html_url, lastActivity := rc.2 })] := by
          unfold mergeOne; rw [hlog]; dsimp only
          rw [if_pos hval, if_neg hmem]
        rw [hm]
        have h0 : recordsFor l₀ p = [] := by
          rcases hr : recordsFor l₀ p with _ | ⟨r0, rest⟩
          · rfl
          · exfalso
            have hE : entryFor l₀ p = some { id := toString r0.1.id,
                                             login := l₀,
                                             avatar_url := r0.1.avatar_url,
                                             contributions := sumContributions l₀ p,
                                             html_url := r0.1.html_url,
                                             lastActivity := r0.2 } := by
              unfold entryFor; rw [hr]
            exact hmem (mem_keys_iff.mpr ⟨_, (hiff l₀ _).mpr hE⟩)
        constructor
        · rw [List.map_append]
          simp only [List.map_cons, List.map_nil]
          rw [List.nodup_append]
          refine ⟨hnd, List.nodup_singleton _, ?_⟩
          intro a ha hb
          rw [List.mem_singleton] at hb
          exact hmem (hb ▸ ha)
        · intro l c
          rw [List.mem_append]
          by_cases hl : l = l₀
          · subst hl
            rw [entryFor_append_new hvr hlog h0]
            constructor
            · rintro (hc | hc)
              · exfalso; exact hmem (mem_keys_iff.mpr ⟨c, hc⟩)
              · simp at hc
                rw [hc]
            · intro hc
              right
              simp
              exact (Option.some.inj hc).symm
          · have hlog' : rc.1.login ≠ some l := by
              rw [hlog]; simp; exact fun e => hl e.symm
            rw [entryFor_append_untouched (recordsFor_append_other hlog' p)]
            constructor
            · rintro (hc | hc)
              · exact (hiff l c).mp hc
              · exfalso; simp at hc; exact hl hc.1
            · intro hc
              exact Or.inl ((hiff l c).mpr hc)
    · have hvr : validRecord rc.1 = false := by
        unfold validRecord
        rw [hlog]
        rcases not_and_or.mp hval with h1 | h2
        · simp at h1; simp [h1]
        · simp [h2]
      have hm : mergeOne m rc = m := by
        unfold mergeOne; rw [hlog]; dsimp only
        rw [if_neg hval]
      rw [hm]
      refine ⟨hnd, fun l c => ?_⟩
      rw [entryFor_append_untouched (recordsFor_append_invalid hvr l p)]
      exact hiff l c

lemma mergeInv_foldl (rcs : List (RawContributor × Int)) :
    ∀ (p : List (RawContributor × Int)) (m : List (String × Contributor)),
      MergeInv p m → MergeInv (p ++ rcs) (rcs.foldl mergeOne m) := by
  induction rcs with
  | nil => intro p m h; simpa using h
  | cons r rest ih =>
    intro p m h
    rw [List.foldl_cons]
    have := ih (p ++ [r]) (mergeOne m r) (mergeInv_step r h)
    simpa [List.append_assoc] using this

/-- C2: the merge step produces a map with pairwise-distinct logins; every
surviving entry carries the login it is keyed by, a contribution count
equal to the sum of the counts of all guard-passing records with that
login, and the id, avatar URL, profile URL (and synthesized timestamp) of
the first-seen such record; and a login appears in the map exactly when
some guard-passing record carries it (records without a login or whose
account type is not "User" are excluded). -/
theorem mergeAll_spec (rcs : List (RawContributor × Int)) :
    ((mergeAll rcs).map Prod.fst).Nodup ∧
    (∀ l c, (l, c) ∈ mergeAll rcs →
      c.login = l ∧ c.contributions = sumContributions l rcs ∧
      ∃ r0 rest, recordsFor l rcs = r0 :: rest ∧ c.id = toString r0.1.id ∧
        c.avatar_url = r0.1.avatar_url ∧ c.html_url = r0.1.html_url ∧
        c.lastActivity = r0.2) ∧
    (∀ l, (∃ c, (l, c) ∈ mergeAll rcs) ↔ recordsFor l rcs ≠ []) := by
  have hInv : MergeInv rcs (mergeAll rcs) := by
    have := mergeInv_foldl rcs [] [] mergeInv_nil
    simpa [mergeAll] using this
  obtain ⟨hnd, hiff⟩ := hInv
  refine ⟨hnd, ?_, ?_⟩
  · intro l c hc
    have hE := (hiff l c).mp hc
    rcases hr : recordsFor l rcs with _ | ⟨r0, rest⟩
    · rw [entryFor_eq_none.mpr hr] at hE; cases hE
    · unfold entryFor at hE
      rw [hr] at hE
      obtain rfl := Option.some.inj hE
      exact ⟨rfl, rfl, r0, rest, rfl, rfl, rfl, rfl, rfl⟩
  · intro l
    constructor
    · rintro ⟨c, hc⟩ hnil
      have hE := (hiff l c).mp hc
      rw [entryFor_eq_none.mpr hnil] at hE
      cases hE
    · intro hne
      rcases hr : recordsFor l rcs with _ | ⟨r0, rest⟩
      · exact absurd hr hne
      · refine ⟨{ id := toString r0.1.id, login := l,
                  avatar_url := r0.1.avatar_url,
                  contributions := sumContributions l rcs,
                  html_url := r0.1.html_url,
                  lastActivity := r0.2 }, (hiff l _).mpr ?_⟩
        unfold entryFor
        rw [hr]

/-- Sample record stream: "alice" appears in two repositories (with
different identity fields the second time), "bob" once, and a non-user
account once. -/
def sampleRecords : List (RawContributor × Int) :=
  [(⟨some "alice", "User", 1, "a.png", 10, "u/alice"⟩, 100),
   (⟨some "bob", "User", 2, "b.png", 5, "u/bob"⟩, 200),
   (⟨some "alice", "User", 1, "a2.png", 20, "u/alice2"⟩, 300),
   (⟨some "bot", "Bot", 3, "bot.png", 99, "u/bot"⟩, 400)]

/-- The entry the merge is expected to hold for "alice" after
`sampleRecords`: first-seen identity fields, summed count 10 + 20. -/
def sampleAlice : Contributor :=
  { id := "1", login := "alice", avatar_url := "a.png",
    contributions := 30, html_url := "u/alice", lastActivity := 100 }

/-- Witness for C2 on `sampleRecords`: the merged "alice" entry is in the
map and its count is the sum over both of alice's records. -/
theorem mergeAll_spec_witness :
    ("alice", sampleAlice) ∈ mergeAll sampleRecords ∧
    sampleAlice.login = "alice" ∧
    sampleAlice.contributions = sumContributions "alice" sampleRecords :=
  ⟨by decide,
   ((mergeAll_spec sampleRecords).2.1 "alice" sampleAlice (by decide)).1,
   ((mergeAll_spec sampleRecords).2.1 "alice" sampleAlice (by decide)).2.1⟩

/-- Lines 101–103: map values sorted by the comparator
`(a, b) => b.contributions - a.contributions` (contribution count
descending, JS sort is stable), then `slice(0, 15)`. -/
def liveContributors (m : List (String × Contributor)) : List Contributor :=
  ((m.map Prod.snd).mergeSort
    fun a b => decide (b.contributions ≤ a.contributions)).take 15

/-- C6: after every successful fetch cycle the stored contributor list is
sorted by contribution count in descending order and has at most 15
elements, whatever the merged map holds. -/
theorem liveContributors_sorted_le_15 (m : List (String × Contributor)) :
    (liveContributors m).length ≤ 15 ∧
    (liveContributors m).Pairwise
      (fun a b => b.contributions ≤ a.contributions) := by
  constructor
  · exact List.length_take_le 15 _
  · have hs := @List.sorted_mergeSort Contributor
      (fun a b : Contributor => decide (b.contributions ≤ a.contributions))
      (fun a b c hab hbc => by
        simp only [decide_eq_true_eq] at *
        exact le_trans hbc hab)
      (fun a b => by
        simp only [Bool.or_eq_true, decide_eq_true_eq]
        exact le_total b.contributions a.contributions)
      (m.map Prod.snd)
    have hs' : ((m.map Prod.snd).mergeSort
        fun a b : Contributor => decide (b.contributions ≤ a.contributions)).Pairwise
        (fun a b => b.contributions ≤ a.contributions) :=
      hs.imp fun h => by simpa using h
    exact hs'.sublist (List.take_sublist 15 _)

/-- Lines 107–111: one synthesized event per contributor, in order, the
random action draw of each position given by the oracle `acts`, the
timestamp copied from the contributor's `lastActivity`. -/
def mkActivities (acts : Nat → ContribAction) (l : List Contributor) :
    List ContributorActivity :=
  l.enum.map fun p =>
    { contributor := p.2, action := acts p.1, timestamp := p.2.lastActivity }

/-- C7: the activity list always has the same length as the contributor
list it was synthesized from, with exactly one event per contributor, in
the same order, each event's timestamp equal to that contributor's
`lastActivity`. -/
theorem mkActivities_matches (acts : Nat → ContribAction) (l : List Contributor) :
    (mkActivities acts l).length = l.length ∧
    ∀ i : Nat, (mkActivities acts l)[i]? =
      (l[i]?).map fun c =>
        { contributor := c, action := acts i, timestamp := c.lastActivity } := by
  constructor
  · simp [mkActivities]
  · intro i
    simp only [mkActivities, List.getElem?_map]
    rcases h : l[i]? with _ | c
    · have : l.enum[i]? = none := by
        rw [List.getElem?_eq_none_iff] at h ⊢
        simpa using h
      simp [this]
    · have : l.enum[i]? = some (i, c) := by
        rw [List.getElem?_enum, h]
        rfl
      simp [this]

/-- The nine fixed offsets of `generateRandomTimestamp` (lines 166–176),
in milliseconds: 30 s, 2 min, 5 min, 10 min, 30 min, 1 h, 2 h, 1 d, 2 d. -/
def timeOffsets : List Int :=
  [30 * 1000, 2 * 60 * 1000, 5 * 60 * 1000, 10 * 60 * 1000, 30 * 60 * 1000,
   60 * 60 * 1000, 2 * 60 * 60 * 1000, 24 * 60 * 60 * 1000,
   2 * 24 * 60 * 60 * 1000]

/-- `generateRandomTimestamp` (lines 164–179): the `Math.random()` draw is
the oracle `q`; the chosen index is `⌊q * timeOffsets.length⌋`; an
out-of-range index would read `undefined` and poison the subtraction,
modelled as `none`. -/
def generateRandomTimestamp (now : Int) (q : ℚ) : Option Int :=
  let i : Int := ⌊q * (timeOffsets.length : ℚ)⌋
  if h : 0 ≤ i ∧ i.toNat < timeOffsets.length then
    some (now - timeOffsets.get ⟨i.toNat, h.2⟩)
  else none

/-- C9: for every random draw in `[0, 1)` the index is in bounds, the
synthesized timestamp is `now` minus the selected offset, and the selected
offset belongs to the fixed nine-element offset set. -/
theorem generateRandomTimestamp_in_set (now : Int) (q : ℚ)
    (h0 : 0 ≤ q) (h1 : q < 1) :
    generateRandomTimestamp now q =
      some (now - timeOffsets.getD ⌊q * (timeOffsets.length : ℚ)⌋.toNat 0) ∧
    timeOffsets.getD ⌊q * (timeOffsets.length : ℚ)⌋.toNat 0 ∈ timeOffsets := by
  have hlen : (timeOffsets.length : ℚ) = 9 := by norm_num [timeOffsets]
  have hi0 : (0 : Int) ≤ ⌊q * (timeOffsets.length : ℚ)⌋ := by
    apply Int.floor_nonneg.mpr
    positivity
  have hi9 : ⌊q * (timeOffsets.length : ℚ)⌋ < 9 := by
    rw [hlen]
    apply Int.floor_lt.mpr
    push_cast
    nlinarith
  have hlt : ⌊q * (timeOffsets.length : ℚ)⌋.toNat < timeOffsets.length := by
    have : timeOffsets.length = 9 := by norm_num [timeOffsets]
    omega
  constructor
  · rw [generateRandomTimestamp, dif_pos ⟨hi0, hlt⟩,
      List.getD_eq_getElem _ _ hlt]
    rfl
  · rw [List.getD_eq_getElem _ _ hlt]
    exact List.getElem_mem hlt

/-- Witness for C9 at the draw 1/2: the index is 4, offset 30 minutes. -/
theorem generateRandomTimestamp_in_set_witness :
    (0 : ℚ) ≤ 1 / 2 ∧ (1 / 2 : ℚ) < 1 ∧
    (generateRandomTimestamp 0 (1 / 2) =
      some (0 - timeOffsets.getD ⌊(1 / 2 : ℚ) * (timeOffsets.length : ℚ)⌋.toNat 0) ∧
     timeOffsets.getD ⌊(1 / 2 : ℚ) * (timeOffsets.length : ℚ)⌋.toNat 0 ∈ timeOffsets) :=
  ⟨by norm_num, by norm_num,
   generateRandomTimestamp_in_set 0 (1 / 2) (by norm_num) (by norm_num)⟩

/-- The catch block of `fetchLiveContributors` (lines 121–125): on a fetch
failure with the current `retryCount`, schedule one retry after
`5000 * (retryCount + 1)` ms when `retryCount < 3`, otherwise schedule
nothing.  Returns the delay of the scheduled retry, if any. -/
def scheduleRetry (retryCount : Nat) : Option Nat :=
  if retryCount < 3 then some (5000 * (retryCount + 1)) else none

/-- The `retryCount` state after `n` consecutive fetch failures starting
from a fresh mount (`retryCount = 0`): each failure that schedules a retry
makes the retry run with `retryCount` incremented; a failure that schedules
nothing leaves the state unchanged. -/
def retryCountAfterFailures : Nat → Nat
  | 0 => 0
  | n + 1 =>
    match scheduleRetry (retryCountAfterFailures n) with
    | some _ => retryCountAfterFailures n + 1
    | none => retryCountAfterFailures n

lemma retryCountAfterFailures_eq_min (n : Nat) :
    retryCountAfterFailures n = min n 3 := by
  induction n with
  | zero => rfl
  | succ k ih =>
    unfold retryCountAfterFailures
    rw [ih]
    by_cases h : min k 3 < 3
    · simp [scheduleRetry, h]
      omega
    · simp [scheduleRetry, h]
      omega

/-- C3: up to the ceiling the (n+1)-th consecutive failure — which sees
`retryCount = n`, i.e. `n` retries already consumed — schedules exactly one
retry with the linear delay `5000 * (n + 1)` ms; once three failures have
consumed the three retries, every further failure schedules nothing. -/
theorem retrySchedule_spec (n : Nat) :
    retryCountAfterFailures n = min n 3 ∧
    (n < 3 → scheduleRetry (retryCountAfterFailures n) = some (5000 * (n + 1))) ∧
    (3 ≤ n → scheduleRetry (retryCountAfterFailures n) = none) := by
  refine ⟨retryCountAfterFailures_eq_min n, fun h => ?_, fun h => ?_⟩
  · rw [retryCountAfterFailures_eq_min n]
    have hmin : min n 3 = n := by omega
    rw [hmin, scheduleRetry, if_pos h]
  · rw [retryCountAfterFailures_eq_min n]
    have hmin : min n 3 = 3 := by omega
    rw [hmin]
    rfl

/-- Witness for C3: the third consecutive failure (two retries consumed)
schedules a retry after 15000 ms; after five consecutive failures the
ceiling holds and nothing is scheduled. -/
theorem retrySchedule_spec_witness :
    retryCountAfterFailures 2 = min 2 3 ∧
    scheduleRetry (retryCountAfterFailures 2) = some 15000 ∧
    scheduleRetry (retryCountAfterFailures 5) = none :=
  ⟨(retrySchedule_spec 2).1,
   ((retrySchedule_spec 2).2.1 (by decide)).trans (by decide),
   (retrySchedule_spec 5).2.2 (by decide)⟩

/-- What one render pass of the component produces. -/
inductive RenderOutput where
  | loadingCard
  | empty
  | widget (a : ContributorActivity)
  deriving Repr, DecidableEq

/-- The render function (lines 228–425): the loading placeholder while
`loading` is set (checked first, before the visibility flag); nothing when
the activity list is empty; otherwise, when visible, the card built from
`activities[currentActivityIndex]` — whose dereference throws (`none`)
when the index is out of bounds — and nothing when dismissed. -/
def render (loading : Bool) (activities : List ContributorActivity)
    (currentActivityIndex : Nat) (isVisible : Bool) : Option RenderOutput :=
  if loading then some .loadingCard
  else if activities.length = 0 then some .empty
  else if isVisible then
    match activities[currentActivityIndex]? with
    | some a => some (.widget a)
    | none => none
  else some .empty

/-- C8: with loading over and an empty activity list — in particular after
the retry ceiling is reached with no data — the component renders nothing,
for any rotation index and either visibility state, without throwing. -/
theorem render_empty_activities (idx : Nat) (visible : Bool) :
    render false [] idx visible = some RenderOutput.empty := by
  rfl

/-- C4 (amended): after the dismiss control sets the visibility flag to
false, every render pass that is not in the loading state produces
nothing, for any activity list and rotation index. -/
theorem render_after_dismiss (activities : List ContributorActivity)
    (idx : Nat) : render false activities idx false = some RenderOutput.empty := by
  unfold render
  by_cases h : activities.length = 0 <;> simp [h]

/-- Counterexample to C4 as stated: with the visibility flag already false,
a later refresh cycle re-enters the loading state and the component renders
the loading placeholder, not nothing. -/
theorem render_after_dismiss_loading_not_empty :
    render true [] 0 false = some RenderOutput.loadingCard ∧
    RenderOutput.loadingCard ≠ RenderOutput.empty := by
  constructor
  · rfl
  · intro h
    cases h

/-- A concrete synthesized activity, for evaluating the render model. -/
def sampleActivity : ContributorActivity :=
  { contributor := sampleAlice, action := ContribAction.contributed,
    timestamp := 100 }

/-- One rotation tick (lines 153–161): when the activity list is non-empty
the index advances to `(prev + 1) % activities.length`; with an empty list
the interval is not installed and the index stays. -/
def rotateTick (len idx : Nat) : Nat :=
  if len = 0 then idx else (idx + 1) % len

/-- C5 fails on the code: starting from a 2-element activity list, one tick
advances the index to 1; replacing the list by a 1-element one leaves the
index untouched, and the next visible render selects `activities[1]` on a
1-element list — out of bounds, so the dereference throws. -/
theorem rotation_index_out_of_bounds :
    rotateTick 2 0 = 1 ∧
    render false [sampleActivity] (rotateTick 2 0) true = none := by
  constructor
  · rfl
  · rfl
